import Mathlib

/-!
# Verification of the automation-tool workflow engine

Shallow embedding of the core of the `akshay-nm/automation-tool` repository:
the error taxonomy and backoff computation (`src/domain/errors.ts`), the
expression resolver (`src/domain/services/expression.ts`), the run processor
(`src/workers/processor.ts`), the run cancel route and the webhook admission
check. External effects (database writes, queue publishes) are modelled as an
explicit effect list; external collaborators (the JSONata evaluator, the HMAC
function, `Math.random`, the step handler outcome) are parameters of the
embedded functions.

All JavaScript numbers that matter here are either integers (modelled as `Nat`
or `Int`) or the backoff arithmetic, which is modelled over `ℚ` (the source
values stay well inside the range where IEEE doubles behave like exact
rationals for the operations used: `+`, `*` by small constants, `min`).
Strings are modelled by Lean `String`; indices and lengths agree with
JavaScript UTF-16 indexing on the basic-multilingual-plane inputs considered
here.
-/

namespace AutomationTool

/-! ## JSON-shaped values

`domain` values (step configs, outputs, contexts) are arbitrary JSON values;
the source manipulates them as plain JS data. Numbers are modelled as
integers, which covers every value the verified claims touch. -/

inductive Json where
  | null : Json
  | bool (b : Bool) : Json
  | num (n : Int) : Json
  | str (s : String) : Json
  | arr (xs : List Json) : Json
  | obj (fields : List (String × Json)) : Json

/-- A JavaScript value as flowed through the expression evaluator:
either a JSON value or `undefined`. -/
inductive JsVal where
  | val (j : Json) : JsVal
  | undef : JsVal

/-- Escape one character for a JSON string literal, as `JSON.stringify`
does for the characters that occur in this development. -/
def escapeChar (c : Char) : String :=
  if c = '"' then "\\\""
  else if c = '\\' then "\\\\"
  else if c = '\n' then "\\n"
  else if c = '\t' then "\\t"
  else if c = '\r' then "\\r"
  else String.mk [c]

def escapeString (s : String) : String :=
  String.join (s.data.map escapeChar)

mutual

/-- `JSON.stringify` on JSON values (no spaces, insertion order preserved). -/
def jsonStringify : Json → String
  | Json.null => "null"
  | Json.bool b => if b then "true" else "false"
  | Json.num n => toString n
  | Json.str s => "\"" ++ escapeString s ++ "\""
  | Json.arr xs => "[" ++ jsonStringifyList xs ++ "]"
  | Json.obj fs => "\x7b" ++ jsonStringifyFields fs ++ "\x7d"

def jsonStringifyList : List Json → String
  | [] => ""
  | [x] => jsonStringify x
  | x :: xs => jsonStringify x ++ "," ++ jsonStringifyList xs

def jsonStringifyFields : List (String × Json) → String
  | [] => ""
  | [(k, v)] => "\"" ++ escapeString k ++ "\":" ++ jsonStringify v
  | (k, v) :: fs =>
      "\"" ++ escapeString k ++ "\":" ++ jsonStringify v ++ "," ++ jsonStringifyFields fs

end

/-! ## Error taxonomy (`src/domain/errors.ts`) -/

inductive ErrorCategory where
  | TRANSIENT
  | RESOURCE
  | VALIDATION
  | AUTHORIZATION
  | NOT_FOUND
  | FATAL
deriving DecidableEq, Repr

structure ClassifiedError where
  category : ErrorCategory
  retryable : Bool
  code : String
  message : String
  details : Option Json

/-- A thrown JavaScript error, as far as `classifyError` inspects it:
a `WorkflowError` (with its fields), a generic `Error` (name and message),
or a thrown non-`Error` value. -/
inductive JsError where
  | workflowError (code : String) (message : String) (category : ErrorCategory)
      (details : Option Json) : JsError
  | error (name : String) (message : String) : JsError
  | other (text : String) : JsError

/-- `WorkflowError`'s constructor computes
`retryable = category === TRANSIENT || category === RESOURCE`. -/
def workflowErrorRetryable (category : ErrorCategory) : Bool :=
  category = ErrorCategory.TRANSIENT ∨ category = ErrorCategory.RESOURCE

/-- JavaScript `String.prototype.includes`: `pat` occurs as a contiguous
substring of `s`. -/
def strIncludes (s pat : String) : Bool :=
  (List.range (s.length + 1)).any (fun i => List.isPrefixOf pat.data (s.data.drop i))

/-- `classifyHttpError(status, message?)` from `src/domain/errors.ts`. -/
def classifyHttpError (status : Nat) (message : Option String) : ClassifiedError :=
  if status ≥ 500 ∧ status < 600 then
    ⟨ErrorCategory.TRANSIENT, true, "HTTP_" ++ toString status,
      message.getD ("Server error: " ++ toString status), none⟩
  else if status = 429 then
    ⟨ErrorCategory.TRANSIENT, true, "HTTP_429", message.getD "Rate limited", none⟩
  else if status = 401 ∨ status = 403 then
    ⟨ErrorCategory.AUTHORIZATION, false, "HTTP_" ++ toString status,
      message.getD "Authorization failed", none⟩
  else if status = 404 then
    ⟨ErrorCategory.NOT_FOUND, false, "HTTP_404", message.getD "Resource not found", none⟩
  else if status ≥ 400 ∧ status < 500 then
    ⟨ErrorCategory.VALIDATION, false, "HTTP_" ++ toString status,
      message.getD ("Client error: " ++ toString status), none⟩
  else
    ⟨ErrorCategory.FATAL, false, "HTTP_" ++ toString status,
      message.getD ("Unexpected status: " ++ toString status), none⟩

/-- `classifyError(error)` from `src/domain/errors.ts`. -/
def classifyError : JsError → ClassifiedError
  | JsError.workflowError code message category details =>
      ⟨category, workflowErrorRetryable category, code, message, details⟩
  | JsError.error name message =>
      if strIncludes message "ECONNREFUSED" || strIncludes message "ENOTFOUND" ||
         strIncludes message "ETIMEDOUT" || strIncludes message "ECONNRESET" ||
         strIncludes message "socket hang up" then
        ⟨ErrorCategory.TRANSIENT, true, "NETWORK_ERROR", message, none⟩
      else if strIncludes message "timeout" || name == "TimeoutError" then
        ⟨ErrorCategory.TRANSIENT, true, "TIMEOUT", message, none⟩
      else if name == "ZodError" || name == "ValidationError" then
        ⟨ErrorCategory.VALIDATION, false, "VALIDATION_ERROR", message, none⟩
      else
        ⟨ErrorCategory.FATAL, false, "UNKNOWN_ERROR", message, none⟩
  | JsError.other text =>
      ⟨ErrorCategory.FATAL, false, "UNKNOWN_ERROR", text, none⟩

/-! ## Backoff (`calculateBackoff` in `src/domain/errors.ts`)

`Math.random()` is the parameter `rand ∈ [0, 1)`; arithmetic is over `ℚ`. -/

inductive BackoffType where
  | fixed
  | linear
  | exponential
deriving DecidableEq, Repr

def backoffBase (backoffType : BackoffType) (attempt : Nat) (initialDelayMs : ℚ) : ℚ :=
  match backoffType with
  | BackoffType.fixed => initialDelayMs
  | BackoffType.linear => initialDelayMs * attempt
  | BackoffType.exponential => initialDelayMs * (2 : ℚ) ^ ((attempt : ℤ) - 1)

def calculateBackoff (backoffType : BackoffType) (attempt : Nat)
    (initialDelayMs maxDelayMs : ℚ) (rand : ℚ) : ℚ :=
  let delay := backoffBase backoffType attempt initialDelayMs
  let jitter := delay * (1 / 10 + rand * (1 / 10))
  min (delay + jitter) maxDelayMs

/-! ## Expression resolution (`src/domain/services/expression.ts`)

The JSONata library is external: it is modelled by the oracle
`jeval : String → EvalOut`, giving for each expression text the value the
library's compile-and-evaluate yields against the run context (`EvalOut.fail`
when it throws). The three built-ins return fresh nondeterministic values,
modelled by the parameter `bv : String → Json`. -/

/-- Outcome of compiling and evaluating one JSONata expression against the
context data: a value, `undefined`, or a thrown compile/evaluate error. -/
inductive EvalOut where
  | value (j : Json) : EvalOut
  | undef : EvalOut
  | fail : EvalOut

def builtinNames : List String := ["$now", "$uuid", "$timestamp"]

/-- A whitespace character as JavaScript `String.prototype.trim` removes it
(the ASCII ones that occur here). -/
def isSpaceChar (c : Char) : Bool :=
  c == ' ' || c == '\t' || c == '\n' || c == '\r'

/-- JavaScript `expr.trim()`. -/
def jsTrim (s : String) : String :=
  String.mk (((s.data.dropWhile isSpaceChar).reverse.dropWhile isSpaceChar).reverse)

/-- JavaScript `expr.startsWith('$')`. -/
def startsWithDollar (s : String) : Bool :=
  s.data.head? == some '$'

/-- JavaScript `expr.split('(')[0]`: the text before the first parenthesis. -/
def headBeforeParen (s : String) : String :=
  String.mk (s.data.takeWhile (fun c => c != '('))

/-- `evaluateExpression(expr, context)`: built-ins first, then JSONata; a
JSONata failure returns the `{{expr}}` text itself. -/
def evaluateExpression (bv : String → Json) (jeval : String → EvalOut)
    (expr : String) : JsVal :=
  if startsWithDollar expr && builtinNames.contains (headBeforeParen expr) then
    JsVal.val (bv (headBeforeParen expr))
  else
    match jeval expr with
    | EvalOut.value j => JsVal.val j
    | EvalOut.undef => JsVal.undef
    | EvalOut.fail => JsVal.val (Json.str ("\x7b\x7b" ++ expr ++ "\x7d\x7d"))

/-- The run of non-`\x7d` characters after a candidate `\x7b\x7b`. -/
def innerRun (rest : List Char) : List Char :=
  rest.takeWhile (fun c => c != '\x7d')

/-- The global scan of the template regex (two braces, one-or-more non-brace
characters, two braces, global flag): successive leftmost matches, returning
`(index, innerText)` pairs. A candidate opening that is not followed by a
nonempty non-`\x7d` run and then `\x7d\x7d` fails, and scanning resumes one
character later, exactly as the regex engine advances `lastIndex`. -/
def scanAux : List Char → Nat → List (Nat × String)
  | '\x7b' :: '\x7b' :: rest, i =>
      if 0 < (innerRun rest).length ∧
          (rest.drop (innerRun rest).length).take 2 = ['\x7d', '\x7d'] then
        (i, String.mk (innerRun rest)) ::
          scanAux ((rest.drop (innerRun rest).length).drop 2)
            (i + (innerRun rest).length + 4)
      else scanAux ('\x7b' :: rest) (i + 1)
  | _ :: rest, i => scanAux rest (i + 1)
  | [], _ => []
termination_by cs _ => cs.length
decreasing_by
  all_goals simp_wf
  all_goals omega

def scanPlaceholders (s : String) : List (Nat × String) :=
  scanAux s.data 0

/-- The single-expression test `template.match(/^\{\{(.+)\}\}$/)`: the whole
string is `\x7b\x7b`, a nonempty middle without line terminators, `\x7d\x7d`.
The greedy `(.+)` makes the captured middle everything between the first two
and the last two characters (it may itself contain `\x7d\x7d` and further
`\x7b\x7b`). -/
def singleExprInner (s : String) : Option String :=
  let cs := s.data
  let n := cs.length
  if 5 ≤ n ∧ cs.take 2 = ['\x7b', '\x7b'] ∧ cs.drop (n - 2) = ['\x7d', '\x7d'] ∧
      ((cs.drop 2).take (n - 4)).all (fun c => c != '\n' && c != '\r') then
    some (String.mk ((cs.drop 2).take (n - 4)))
  else none

/-- Stringification of one interpolated value: `null`/`undefined` to the empty
string, objects and arrays via `JSON.stringify`, primitives via `String(·)`. -/
def valueToReplacement : JsVal → String
  | JsVal.undef => ""
  | JsVal.val Json.null => ""
  | JsVal.val (Json.bool b) => if b then "true" else "false"
  | JsVal.val (Json.num n) => toString n
  | JsVal.val (Json.str s) => s
  | JsVal.val (Json.arr xs) => jsonStringify (Json.arr xs)
  | JsVal.val (Json.obj fs) => jsonStringify (Json.obj fs)

/-- One splice step `result.slice(0, idx) + repl + result.slice(idx + len)`. -/
def spliceOne (s : List Char) (idx len : Nat) (repl : String) : List Char :=
  s.take idx ++ repl.data ++ s.drop (idx + len)

/-- The replacement loop of `resolveStringTemplate`: values are spliced back
in reverse index order (the last match first), so this recursion applies the
head match to the already-spliced tail. The full match at `(idx, inner)` is
`\x7b\x7b ++ inner ++ \x7d\x7d`, of length `inner.length + 4`. -/
def interpolateMatches (bv : String → Json) (jeval : String → EvalOut)
    (tmpl : List Char) : List (Nat × String) → List Char
  | [] => tmpl
  | (idx, inner) :: rest =>
      let repl := valueToReplacement (evaluateExpression bv jeval (jsTrim inner))
      spliceOne (interpolateMatches bv jeval tmpl rest) idx (inner.length + 4) repl

/-- `resolveStringTemplate(template, context)`; `resolveExpressions` applies
this to every string leaf of its input. -/
def resolveStringTemplate (bv : String → Json) (jeval : String → EvalOut)
    (template : String) : JsVal :=
  match singleExprInner template with
  | some inner => evaluateExpression bv jeval (jsTrim inner)
  | none =>
      let ms := scanPlaceholders template
      if ms.isEmpty then JsVal.val (Json.str template)
      else JsVal.val (Json.str (String.mk (interpolateMatches bv jeval template.data ms)))

/-! ## Webhook admission signature check (`src/api/routes/webhooks.ts`)

`crypto.createHmac('sha256', secret).update(body).digest('hex')` is the
external parameter `hmacHex secret body`. The route computes the digest over
`JSON.stringify(request.body)` — the re-serialization of the parsed JSON
body — and compares it to the header with the ordinary string `!==`. -/

/-- `true` means admission proceeds past the signature check; `false` is the
401 response. -/
def verifyWebhookSignature (hmacHex : String → String → String)
    (webhookSecret : Option String) (bodyStringified : String)
    (signatureHeader : Option String) : Bool :=
  match webhookSecret with
  | none => true
  | some secret =>
    match signatureHeader with
    | none => false
    | some signature => signature == "sha256=" ++ hmacHex secret bodyStringified

/-! ## Run processor (`src/workers/processor.ts`)

Repository writes and queue publishes are recorded as an ordered `Effect`
list. Wall-clock values (`startedAt`, `completedAt`, `durationMs`) are not
observable in the embedding: an effect records *that* `completedAt` is set,
not its value, and durations are dropped. The run lock (`redis.set NX` /
`redis.del`) is the boolean parameter `lockAcquired`; the handler invocation
raced against its timeout is the parameter `outcome` (a timeout loss arrives
as `JsError.error "Error" "Step timeout"`); `resolveExpressions(step.config,
run.context)` is the parameter `resolvedConfig`; `Math.random` inside
`calculateBackoff` is the parameter `rand`. -/

inductive RunStatus where
  | pending
  | running
  | completed
  | failed
  | cancelled
deriving DecidableEq, Repr

/-- The run's `error` column as written on terminal failure. -/
structure RunError where
  code : String
  message : String
  details : Option Json
  stepId : String
  stepName : String

/-- The `step_executions.error` JSON written on a failed attempt. -/
structure StepErrorRecord where
  code : String
  message : String
  details : Option Json
  retryable : Bool

structure RetryPolicy where
  maxAttempts : Nat
  backoffType : BackoffType
  initialDelayMs : ℚ
  maxDelayMs : ℚ

/-- `step.retryPolicy ?? { maxAttempts: 3, backoffType: 'exponential',
initialDelayMs: 1000, maxDelayMs: 60000 }`. -/
def defaultRetryPolicy : RetryPolicy :=
  ⟨3, BackoffType.exponential, 1000, 60000⟩

structure Step where
  id : String
  name : String
  type : String
  config : Json
  retryPolicy : Option RetryPolicy
  timeoutMs : Option Nat
  enabled : Bool

structure Workflow where
  id : String
  steps : List Step

/-- `{ trigger, steps, variables }`; `steps` and the `variables` key (field
`vars` here) are JS objects modelled as insertion-ordered association lists. -/
structure ExecutionContext where
  trigger : Json
  steps : List (String × Json)
  vars : List (String × Json)

/-- The context as serialized by `JSON.stringify` (key insertion order
`trigger`, `steps`, `variables`, fixed at run creation). -/
def contextJson (ctx : ExecutionContext) : Json :=
  Json.obj [("trigger", ctx.trigger), ("steps", Json.obj ctx.steps),
    ("variables", Json.obj ctx.vars)]

/-- The JS object spread `\x7b ...obj, [key]: value \x7d`: replace in place
when the key exists, append otherwise. -/
def setKey : List (String × Json) → String → Json → List (String × Json)
  | [], key, value => [(key, value)]
  | (k, v) :: rest, key, value =>
      if k = key then (key, value) :: rest else (k, v) :: setKey rest key value

/-- The persisted mutable fields of a run that the processor touches. -/
structure Run where
  id : String
  status : RunStatus
  context : ExecutionContext
  currentStepIndex : Nat
  error : Option RunError

structure ExecuteStepMessage where
  runId : String
  workflowId : String
  stepIndex : Nat
  stepId : String
  attempt : Nat

inductive QueueName where
  | execute
  | ai
deriving DecidableEq, Repr

/-- One repository write or queue publish, in program order. `updateRun`
mirrors `runRepository.updateStatus`: only the fields passed are written
(`none` means the column is left untouched; `setCompletedAt` records whether
`completedAt: new Date()` was passed). -/
inductive Effect where
  | createExecution (runId stepId stepName : String) (attempt : Nat) (input : Json)
  | updateExecutionRunning
  | updateExecutionCompleted (output : Json)
  | updateExecutionFailed (err : StepErrorRecord)
  | updateRun (status : RunStatus) (currentStepIndex : Option Nat)
      (context : Option ExecutionContext) (setCompletedAt : Bool)
      (error : Option RunError)
  | enqueue (queue : QueueName) (message : ExecuteStepMessage) (delay : Option ℚ)

/-- The effects of one processor entry point, plus the exception it lets
propagate to the worker, if any. -/
structure ProcResult where
  effects : List Effect
  thrown : Option JsError

structure ProcConfig where
  MAX_STEP_OUTPUT_BYTES : Nat
  MAX_CONTEXT_SIZE_BYTES : Nat

/-- `isAiStep ? 'ai' : 'execute'` for a step. -/
def stepQueue (step : Step) : QueueName :=
  if step.type = "ai" then QueueName.ai else QueueName.execute

/-- `(step.config as \x7b durationMs \x7d).durationMs` read off a delay
step's config; a missing or non-numeric field is JS `undefined`. -/
def delayOfConfig (config : Json) : Option ℚ :=
  match config with
  | Json.obj fields =>
      match fields.lookup "durationMs" with
      | some (Json.num n) => some (n : ℚ)
      | _ => none
  | _ => none

/-- The step handler's raced invocation as seen by the processor's inner
`try`: the output value, or the error it rejected with. -/
inductive StepOutcome where
  | ok (output : Json)
  | err (e : JsError)

/-- The `Error` thrown when `JSON.stringify(output).length` exceeds the
configured limit. -/
def outputSizeError (cfg : ProcConfig) : JsError :=
  JsError.error "Error"
    ("Step output exceeds " ++ toString cfg.MAX_STEP_OUTPUT_BYTES ++ " bytes")

/-- The `Error` thrown when the extended context serializes too large. -/
def contextSizeError (cfg : ProcConfig) : JsError :=
  JsError.error "Error"
    ("Context exceeds " ++ toString cfg.MAX_CONTEXT_SIZE_BYTES ++ " bytes")

/-- The `catch` block of `processExecuteStep`: record the failed attempt,
then either schedule a retry (retryable and attempts left) or mark the run
failed. -/
def failureEffects (msg : ExecuteStepMessage) (step : Step) (e : JsError)
    (rand : ℚ) : List Effect :=
  let classified := classifyError e
  let failEff := Effect.updateExecutionFailed
    ⟨classified.code, classified.message, classified.details, classified.retryable⟩
  let retryPolicy := step.retryPolicy.getD defaultRetryPolicy
  if classified.retryable = true ∧ msg.attempt < retryPolicy.maxAttempts then
    [failEff,
     Effect.enqueue (stepQueue step)
       { msg with attempt := msg.attempt + 1 }
       (some (calculateBackoff retryPolicy.backoffType msg.attempt
         retryPolicy.initialDelayMs retryPolicy.maxDelayMs rand))]
  else
    [failEff,
     Effect.updateRun RunStatus.failed none none true
       (some ⟨classified.code, classified.message, classified.details,
         msg.stepId, step.name⟩)]

/-- `processExecuteStep(job, handlers)`. `handlerTypes` is the key set of the
handler registry. -/
def processExecuteStep (cfg : ProcConfig) (msg : ExecuteStepMessage)
    (lockAcquired : Bool) (workflow? : Option Workflow) (run? : Option Run)
    (handlerTypes : List String) (resolvedConfig : Json)
    (outcome : StepOutcome) (rand : ℚ) : ProcResult :=
  if lockAcquired = false then
    ⟨[Effect.enqueue QueueName.execute msg (some 1000)], none⟩
  else
    match workflow? with
    | none => ⟨[], some (JsError.error "Error"
        ("Workflow " ++ msg.workflowId ++ " not found"))⟩
    | some workflow =>
      match run? with
      | none => ⟨[], some (JsError.error "Error"
          ("Run " ++ msg.runId ++ " not found"))⟩
      | some run =>
        if run.status ≠ RunStatus.running then ⟨[], none⟩
        else if run.currentStepIndex ≠ msg.stepIndex then ⟨[], none⟩
        else
          let enabledSteps := workflow.steps.filter (fun s => s.enabled)
          match enabledSteps.find? (fun s => s.id = msg.stepId) with
          | none => ⟨[], some (JsError.error "Error"
              ("Step " ++ msg.stepId ++ " not found"))⟩
          | some step =>
            if handlerTypes.contains step.type = false then
              ⟨[], some (JsError.error "Error"
                ("No handler for step type: " ++ step.type))⟩
            else
              let pre := [Effect.createExecution msg.runId msg.stepId step.name
                  msg.attempt resolvedConfig,
                Effect.updateExecutionRunning]
              match outcome with
              | StepOutcome.err e => ⟨pre ++ failureEffects msg step e rand, none⟩
              | StepOutcome.ok output =>
                if (jsonStringify output).length > cfg.MAX_STEP_OUTPUT_BYTES then
                  ⟨pre ++ failureEffects msg step (outputSizeError cfg) rand, none⟩
                else
                  let completedEff := Effect.updateExecutionCompleted output
                  let newContext : ExecutionContext :=
                    { run.context with
                        steps := setKey run.context.steps step.name output }
                  if (jsonStringify (contextJson newContext)).length >
                      cfg.MAX_CONTEXT_SIZE_BYTES then
                    ⟨pre ++ [completedEff] ++
                      failureEffects msg step (contextSizeError cfg) rand, none⟩
                  else
                    let nextStepIndex := msg.stepIndex + 1
                    let advanceEff := Effect.updateRun RunStatus.running
                      (some nextStepIndex) (some newContext) false none
                    if h : nextStepIndex < enabledSteps.length then
                      let nextStep := enabledSteps[nextStepIndex]
                      let delay : Option ℚ :=
                        if step.type = "delay" then delayOfConfig step.config
                        else none
                      ⟨pre ++ [completedEff, advanceEff,
                        Effect.enqueue (stepQueue nextStep)
                          ⟨msg.runId, msg.workflowId, nextStepIndex,
                            nextStep.id, 1⟩ delay], none⟩
                    else
                      ⟨pre ++ [completedEff, advanceEff,
                        Effect.updateRun RunStatus.completed none none true none],
                        none⟩

/-- `processStartRun(runId, workflowId, handlers)`. -/
def processStartRun (runId workflowId : String)
    (workflow? : Option Workflow) (run? : Option Run) : ProcResult :=
  match workflow? with
  | none => ⟨[], some (JsError.error "Error"
      ("Workflow " ++ workflowId ++ " not found"))⟩
  | some workflow =>
    match run? with
    | none => ⟨[], some (JsError.error "Error"
        ("Run " ++ runId ++ " not found"))⟩
    | some _run =>
      let statusEff := Effect.updateRun RunStatus.running none none false none
      match workflow.steps.filter (fun s => s.enabled) with
      | [] => ⟨[statusEff,
          Effect.updateRun RunStatus.completed none none true none], none⟩
      | firstStep :: _ =>
          ⟨[statusEff,
            Effect.enqueue (stepQueue firstStep)
              ⟨runId, workflowId, 0, firstStep.id, 1⟩ none], none⟩

/-! ## The cancel endpoint (`POST /api/v1/runs/:id/cancel`,
`src/api/routes/workflows.ts`) -/

inductive CancelResponse where
  | notFoundResp
  | badRequestResp
  | okResp
deriving DecidableEq, Repr

def cancelRun (run? : Option Run) : CancelResponse × List Effect :=
  match run? with
  | none => (CancelResponse.notFoundResp, [])
  | some run =>
    if run.status ≠ RunStatus.pending ∧ run.status ≠ RunStatus.running then
      (CancelResponse.badRequestResp, [])
    else
      (CancelResponse.okResp,
        [Effect.updateRun RunStatus.cancelled none none true none])

/-! ## Sample fixtures used by witness theorems -/

def sampleCfg : ProcConfig := ⟨262144, 1048576⟩

def sampleContext : ExecutionContext := ⟨Json.null, [], []⟩

def sampleStepHttp : Step := ⟨"s1", "fetch", "http", Json.null, none, none, true⟩

def sampleWorkflow : Workflow := ⟨"w1", [sampleStepHttp]⟩

def sampleMsg : ExecuteStepMessage := ⟨"r1", "w1", 0, "s1", 1⟩

def sampleRunningRun : Run := ⟨"r1", RunStatus.running, sampleContext, 0, none⟩

def sampleCompletedRun : Run := ⟨"r1", RunStatus.completed, sampleContext, 0, none⟩

/-! ## C8 — HTTP error classification and the retryable flag -/

/-- The category table exactly as the claim states it (a second definition,
written from the spec's words, for comparison with `classifyHttpError`). -/
def specHttpCategory (status : Nat) : ErrorCategory :=
  if (500 ≤ status ∧ status ≤ 599) ∨ status = 429 then ErrorCategory.TRANSIENT
  else if status = 401 ∨ status = 403 then ErrorCategory.AUTHORIZATION
  else if status = 404 then ErrorCategory.NOT_FOUND
  else if 400 ≤ status ∧ status ≤ 499 then ErrorCategory.VALIDATION
  else ErrorCategory.FATAL

/-- C8: for every HTTP status, `classifyHttpError` assigns the category the
claim's table states (TRANSIENT for 5xx and 429, AUTHORIZATION for 401/403,
NOT_FOUND for 404, VALIDATION for every other 4xx, FATAL otherwise), and for
every classified error — from `classifyHttpError` or `classifyError` — the
`retryable` flag is true exactly when the category is TRANSIENT or
RESOURCE. -/
theorem classifyHttpError_matches_spec :
    (∀ (status : Nat) (message : Option String),
      (classifyHttpError status message).category = specHttpCategory status ∧
      ((classifyHttpError status message).retryable = true ↔
        ((classifyHttpError status message).category = ErrorCategory.TRANSIENT ∨
         (classifyHttpError status message).category = ErrorCategory.RESOURCE))) ∧
    (∀ e : JsError,
      (classifyError e).retryable = true ↔
        ((classifyError e).category = ErrorCategory.TRANSIENT ∨
         (classifyError e).category = ErrorCategory.RESOURCE)) := by
  constructor
  · intro status message
    unfold classifyHttpError specHttpCategory
    split_ifs <;> first | exact ⟨rfl, by simp⟩ | (exfalso; omega)
  · intro e
    cases e with
    | workflowError code message category details =>
        simp only [classifyError, workflowErrorRetryable]
        cases category <;> simp
    | error name message =>
        simp only [classifyError]
        split_ifs <;> simp
    | other text => simp [classifyError]

/-! ## C5 — backoff shape and bounds -/

/-- The jitter factor `0.1 + Math.random() * 0.1`. -/
def backoffJitterFactor (rand : ℚ) : ℚ := 1 / 10 + rand * (1 / 10)

theorem backoffBase_ge_initial (backoffType : BackoffType) (attempt : Nat)
    (initialDelayMs : ℚ) (hAttempt : 1 ≤ attempt) (hInit : 0 ≤ initialDelayMs) :
    initialDelayMs ≤ backoffBase backoffType attempt initialDelayMs := by
  cases backoffType with
  | fixed => simp [backoffBase]
  | linear =>
      simp only [backoffBase]
      have h1 : (1 : ℚ) ≤ (attempt : ℚ) := by exact_mod_cast hAttempt
      nlinarith
  | exponential =>
      simp only [backoffBase]
      have hz : ((attempt : ℤ) - 1) = ((attempt - 1 : Nat) : ℤ) := by omega
      rw [hz, zpow_natCast]
      have h1 : (1 : ℚ) ≤ 2 ^ (attempt - 1) := one_le_pow₀ (by norm_num)
      nlinarith

theorem backoffBase_nonneg (backoffType : BackoffType) (attempt : Nat)
    (initialDelayMs : ℚ) (hInit : 0 ≤ initialDelayMs) :
    0 ≤ backoffBase backoffType attempt initialDelayMs := by
  cases backoffType with
  | fixed => simpa [backoffBase]
  | linear =>
      simp only [backoffBase]
      positivity
  | exponential =>
      simp only [backoffBase]
      positivity

/-- C5 (amended): the returned delay is `min(base · (1 + j), maxMs)` with
`j = 0.1 + 0.1·rand ∈ [0.10, 0.20)`, and for `attempt ≥ 1` and
`initialDelayMs ≥ 0` it satisfies
`min(initialMs·1.1, maxMs) ≤ delay ≤ min(base·1.2, maxMs)` — the claim's
unconditional lower bound `initialMs·1.1 ≤ delay` only holds once capped by
`maxMs`. -/
theorem calculateBackoff_bounds (backoffType : BackoffType) (attempt : Nat)
    (initialDelayMs maxDelayMs rand : ℚ)
    (hAttempt : 1 ≤ attempt) (hInit : 0 ≤ initialDelayMs)
    (hr0 : 0 ≤ rand) (hr1 : rand < 1) :
    (1 / 10 ≤ backoffJitterFactor rand ∧ backoffJitterFactor rand < 2 / 10 ∧
      calculateBackoff backoffType attempt initialDelayMs maxDelayMs rand =
        min (backoffBase backoffType attempt initialDelayMs *
          (1 + backoffJitterFactor rand)) maxDelayMs) ∧
    min (initialDelayMs * (1 + 1 / 10)) maxDelayMs ≤
      calculateBackoff backoffType attempt initialDelayMs maxDelayMs rand ∧
    calculateBackoff backoffType attempt initialDelayMs maxDelayMs rand ≤
      min (backoffBase backoffType attempt initialDelayMs * (1 + 2 / 10)) maxDelayMs := by
  have hbase0 : 0 ≤ backoffBase backoffType attempt initialDelayMs :=
    backoffBase_nonneg backoffType attempt initialDelayMs hInit
  have hbase1 : initialDelayMs ≤ backoffBase backoffType attempt initialDelayMs :=
    backoffBase_ge_initial backoffType attempt initialDelayMs hAttempt hInit
  set base := backoffBase backoffType attempt initialDelayMs with hbase
  have hshape : calculateBackoff backoffType attempt initialDelayMs maxDelayMs rand =
      min (base * (1 + backoffJitterFactor rand)) maxDelayMs := by
    simp only [calculateBackoff, backoffJitterFactor, ← hbase]
    ring_nf
  refine ⟨⟨by simp [backoffJitterFactor]; positivity, by simp [backoffJitterFactor]; nlinarith,
    hshape⟩, ?_, ?_⟩
  · rw [hshape]
    refine min_le_min ?_ le_rfl
    have hj : 1 + 1 / 10 ≤ 1 + backoffJitterFactor rand := by
      simp [backoffJitterFactor]; positivity
    nlinarith
  · rw [hshape]
    refine min_le_min ?_ le_rfl
    have hj : 1 + backoffJitterFactor rand ≤ 1 + 2 / 10 := by
      simp [backoffJitterFactor]; nlinarith
    nlinarith

/-- C5 counterexample: with `backoffType = fixed`, `attempt = 1`,
`initialDelayMs = 2000`, `maxDelayMs = 1000` and `Math.random() = 0`, the
returned delay is 1000, strictly below the claimed unconditional lower bound
`initialDelayMs · (1 + 0.10) = 2200`. -/
theorem calculateBackoff_lower_bound_fails :
    calculateBackoff BackoffType.fixed 1 2000 1000 0 = 1000 ∧
    ¬ ((2000 : ℚ) * (1 + 1 / 10) ≤ calculateBackoff BackoffType.fixed 1 2000 1000 0) := by
  norm_num [calculateBackoff, backoffBase, min_def]

/-- Witness for `calculateBackoff_bounds` at
`(exponential, attempt 2, 1000ms, 60000ms, rand 0)`. -/
theorem calculateBackoff_bounds_example :
    (1 / 10 ≤ backoffJitterFactor 0 ∧ backoffJitterFactor 0 < 2 / 10 ∧
      calculateBackoff BackoffType.exponential 2 1000 60000 0 =
        min (backoffBase BackoffType.exponential 2 1000 *
          (1 + backoffJitterFactor 0)) 60000) ∧
    min ((1000 : ℚ) * (1 + 1 / 10)) 60000 ≤
      calculateBackoff BackoffType.exponential 2 1000 60000 0 ∧
    calculateBackoff BackoffType.exponential 2 1000 60000 0 ≤
      min (backoffBase BackoffType.exponential 2 1000 * (1 + 2 / 10)) 60000 :=
  calculateBackoff_bounds BackoffType.exponential 2 1000 60000 0
    (by norm_num) (by norm_num) (by norm_num) (by norm_num)

/-! ## C10 — lock-acquisition failure re-enqueues onto `execute` -/

/-- C10: whenever the run lock is not acquired, `processExecuteStep`
re-enqueues the unchanged message with a 1000 ms delay onto the `execute`
queue — irrespective of the step's type, so an `ai`-queue message migrates to
`execute` — and performs no repository write and no other enqueue before
returning (and throws nothing). -/
theorem lock_miss_requeues_execute (cfg : ProcConfig) (msg : ExecuteStepMessage)
    (workflow? : Option Workflow) (run? : Option Run) (handlerTypes : List String)
    (resolvedConfig : Json) (outcome : StepOutcome) (rand : ℚ) :
    processExecuteStep cfg msg false workflow? run? handlerTypes resolvedConfig
      outcome rand =
      ⟨[Effect.enqueue QueueName.execute msg (some 1000)], none⟩ := by
  simp [processExecuteStep]

/-! ## C2 — stale or duplicate deliveries leave state unchanged -/

/-- C2: once the lock is held, a loaded run whose status is not `running` or
whose `currentStepIndex` differs from the message's `stepIndex` makes the
processor return with no effect at all: no run write, no step-execution row,
no enqueue, and nothing thrown. -/
theorem stale_delivery_no_writes (cfg : ProcConfig) (msg : ExecuteStepMessage)
    (workflow : Workflow) (run : Run) (handlerTypes : List String)
    (resolvedConfig : Json) (outcome : StepOutcome) (rand : ℚ)
    (h : run.status ≠ RunStatus.running ∨ run.currentStepIndex ≠ msg.stepIndex) :
    processExecuteStep cfg msg true (some workflow) (some run) handlerTypes
      resolvedConfig outcome rand = ⟨[], none⟩ := by
  rcases h with h | h
  · simp [processExecuteStep, h]
  · by_cases hs : run.status = RunStatus.running
    · simp [processExecuteStep, hs, h]
    · simp [processExecuteStep, hs]

/-- Witness for `stale_delivery_no_writes`: a duplicate delivery observed
after the run has completed writes nothing. -/
theorem stale_delivery_no_writes_example :
    processExecuteStep sampleCfg sampleMsg true (some sampleWorkflow)
      (some sampleCompletedRun) ["http"] Json.null (StepOutcome.ok Json.null) 0 =
      ⟨[], none⟩ :=
  stale_delivery_no_writes sampleCfg sampleMsg sampleWorkflow sampleCompletedRun
    ["http"] Json.null (StepOutcome.ok Json.null) 0
    (Or.inl (by simp [sampleCompletedRun]))

/-! ## C1 — the failure path: retry iff retryable with attempts left -/

/-- C1: on the failure path of `processExecuteStep` (guards passed, handler
outcome an error `e`), with `policy = step.retryPolicy ?? defaultRetryPolicy`:
a retry message with `attempt = msg.attempt + 1` is enqueued — onto the queue
matching the step's type, with the computed backoff delay — if and only if
the classified error is retryable and `msg.attempt < policy.maxAttempts`; in
the retry case no run row is written at all (in particular
`currentStepIndex` is not advanced), and otherwise the run is written with
`status = failed`, `completedAt` set, and
`error = (code, message, details, stepId, stepName)` with no enqueue. -/
theorem failure_path_retry_iff (cfg : ProcConfig) (msg : ExecuteStepMessage)
    (workflow : Workflow) (run : Run) (handlerTypes : List String)
    (resolvedConfig : Json) (e : JsError) (rand : ℚ) (step : Step)
    (hStatus : run.status = RunStatus.running)
    (hIdx : run.currentStepIndex = msg.stepIndex)
    (hFind : (workflow.steps.filter (fun s => s.enabled)).find?
      (fun s => s.id = msg.stepId) = some step)
    (hHandler : handlerTypes.contains step.type = true) :
    let result := processExecuteStep cfg msg true (some workflow) (some run)
      handlerTypes resolvedConfig (StepOutcome.err e) rand
    let classified := classifyError e
    let policy := step.retryPolicy.getD defaultRetryPolicy
    let retryEff := Effect.enqueue (stepQueue step)
      { msg with attempt := msg.attempt + 1 }
      (some (calculateBackoff policy.backoffType msg.attempt
        policy.initialDelayMs policy.maxDelayMs rand))
    ((retryEff ∈ result.effects) ↔
      (classified.retryable = true ∧ msg.attempt < policy.maxAttempts)) ∧
    ((classified.retryable = true ∧ msg.attempt < policy.maxAttempts) →
      ∀ st i c b er, Effect.updateRun st i c b er ∉ result.effects) ∧
    (¬ (classified.retryable = true ∧ msg.attempt < policy.maxAttempts) →
      Effect.updateRun RunStatus.failed none none true
        (some ⟨classified.code, classified.message, classified.details,
          msg.stepId, step.name⟩) ∈ result.effects ∧
      ∀ q m d, Effect.enqueue q m d ∉ result.effects) := by
  intro result classified policy retryEff
  have hres : result = ⟨[Effect.createExecution msg.runId msg.stepId step.name
      msg.attempt resolvedConfig, Effect.updateExecutionRunning] ++
      failureEffects msg step e rand, none⟩ := by
    simp only [result, processExecuteStep, hStatus, hIdx, hFind, hHandler]
    simp
  by_cases hc : classified.retryable = true ∧ msg.attempt < policy.maxAttempts
  · have heffs : failureEffects msg step e rand =
        [Effect.updateExecutionFailed ⟨classified.code, classified.message,
          classified.details, classified.retryable⟩, retryEff] := by
      simp only [failureEffects, retryEff, policy, classified] at hc ⊢
      rw [if_pos hc]
    refine ⟨?_, fun _ => ?_, fun hn => absurd hc hn⟩
    · simp [hres, heffs, hc]
    · intro st i c b er
      simp [hres, heffs]
  · have heffs : failureEffects msg step e rand =
        [Effect.updateExecutionFailed ⟨classified.code, classified.message,
          classified.details, classified.retryable⟩,
         Effect.updateRun RunStatus.failed none none true
          (some ⟨classified.code, classified.message, classified.details,
            msg.stepId, step.name⟩)] := by
      simp only [failureEffects, policy, classified] at hc ⊢
      rw [if_neg hc]
    refine ⟨?_, fun h => absurd h hc, fun _ => ?_⟩
    · simp only [hres, heffs]
      constructor
      · intro hmem
        simp [retryEff] at hmem
      · intro h
        exact absurd h hc
    · refine ⟨by simp [hres, heffs], ?_⟩
      intro q m d
      simp [hres, heffs]

/-- Witness for `failure_path_retry_iff`: a transient network failure on
attempt 1 of an http step with the default retry policy. -/
theorem failure_path_retry_iff_example :
    let result := processExecuteStep sampleCfg sampleMsg true (some sampleWorkflow)
      (some sampleRunningRun) ["http"] Json.null
      (StepOutcome.err (JsError.error "Error" "connect ECONNREFUSED 127.0.0.1:80")) 0
    let classified := classifyError
      (JsError.error "Error" "connect ECONNREFUSED 127.0.0.1:80")
    let policy := sampleStepHttp.retryPolicy.getD defaultRetryPolicy
    let retryEff := Effect.enqueue (stepQueue sampleStepHttp)
      { sampleMsg with attempt := sampleMsg.attempt + 1 }
      (some (calculateBackoff policy.backoffType sampleMsg.attempt
        policy.initialDelayMs policy.maxDelayMs 0))
    ((retryEff ∈ result.effects) ↔
      (classified.retryable = true ∧ sampleMsg.attempt < policy.maxAttempts)) ∧
    ((classified.retryable = true ∧ sampleMsg.attempt < policy.maxAttempts) →
      ∀ st i c b er, Effect.updateRun st i c b er ∉ result.effects) ∧
    (¬ (classified.retryable = true ∧ sampleMsg.attempt < policy.maxAttempts) →
      Effect.updateRun RunStatus.failed none none true
        (some ⟨classified.code, classified.message, classified.details,
          sampleMsg.stepId, sampleStepHttp.name⟩) ∈ result.effects ∧
      ∀ q m d, Effect.enqueue q m d ∉ result.effects) :=
  failure_path_retry_iff sampleCfg sampleMsg sampleWorkflow sampleRunningRun
    ["http"] Json.null (JsError.error "Error" "connect ECONNREFUSED 127.0.0.1:80")
    0 sampleStepHttp rfl rfl (by rfl) (by rfl)

/-! ## C9 — the webhook signature check -/

theorem string_append_right_inj (p a b : String) : p ++ a = p ++ b ↔ a = b := by
  constructor
  · intro h
    have hd := congrArg String.data h
    simp only [String.data_append] at hd
    exact String.ext (List.append_cancel_left hd)
  · intro h
    rw [h]

/-- C9 (what the code does): the route recomputes the digest over
`JSON.stringify(request.body)` — the parsed body re-serialized — so a header
carrying the signature the claim mandates, `sha256= + hmac(secret, rawBody)`,
is rejected with 401 whenever the HMAC distinguishes the raw bytes from the
re-serialization. The comparison is the ordinary string `!==`, not a
constant-time comparison. -/
theorem webhook_rejects_raw_body_signature (hmacHex : String → String → String)
    (secret rawBody canonBody : String)
    (hdiff : hmacHex secret rawBody ≠ hmacHex secret canonBody) :
    verifyWebhookSignature hmacHex (some secret) canonBody
      (some ("sha256=" ++ hmacHex secret rawBody)) = false := by
  simp only [verifyWebhookSignature, beq_eq_false_iff_ne, ne_eq,
    string_append_right_inj]
  exact hdiff

/-- Witness for `webhook_rejects_raw_body_signature`: raw body
`\x7b"a": 1\x7d` re-serializes to `\x7b"a":1\x7d`; any digest that separates
the two (here the identity stand-in) makes the spec-correct raw-body
signature fail the check. -/
theorem webhook_rejects_raw_body_signature_example :
    verifyWebhookSignature (fun _secret body => body) (some "k") "\x7b\"a\":1\x7d"
      (some ("sha256=" ++ "\x7b\"a\": 1\x7d")) = false :=
  webhook_rejects_raw_body_signature (fun _secret body => body) "k"
    "\x7b\"a\": 1\x7d" "\x7b\"a\":1\x7d" (by decide)

/-! ## Decimal renderings contain only digit characters

Needed for C4: the thrown size-limit message interpolates a configured
byte count, and `classifyError` must not see any of its keyword substrings
there, whatever the configured limit is. -/

theorem digitChar_isDigit (m : Nat) (h : m < 10) :
    (Nat.digitChar m).isDigit = true := by
  interval_cases m <;> decide

theorem toDigitsCore_digits (fuel : Nat) : ∀ (n : Nat) (acc : List Char),
    (∀ c ∈ acc, c.isDigit = true) →
    ∀ c ∈ Nat.toDigitsCore 10 fuel n acc, c.isDigit = true := by
  induction fuel with
  | zero =>
      intro n acc hacc c hc
      exact hacc c (by simpa [Nat.toDigitsCore] using hc)
  | succ f ih =>
      intro n acc hacc c hc
      simp only [Nat.toDigitsCore] at hc
      have hcons : ∀ x ∈ Nat.digitChar (n % 10) :: acc, x.isDigit = true := by
        intro x hx
        rcases List.mem_cons.mp hx with hx | hx
        · subst hx
          exact digitChar_isDigit (n % 10) (Nat.mod_lt n (by norm_num))
        · exact hacc x hx
      by_cases hz : n / 10 = 0
      · rw [if_pos hz] at hc
        exact hcons c hc
      · rw [if_neg hz] at hc
        exact ih (n / 10) (Nat.digitChar (n % 10) :: acc) hcons c hc

theorem repr_data_digits (n : Nat) : ∀ c ∈ (Nat.repr n).data, c.isDigit = true := by
  intro c hc
  exact toDigitsCore_digits (n + 1) n [] (by simp) c hc

theorem toDigitsCore_ne_nil (fuel : Nat) : ∀ (n : Nat) (acc : List Char),
    (acc ≠ [] ∨ 0 < fuel) → Nat.toDigitsCore 10 fuel n acc ≠ [] := by
  induction fuel with
  | zero =>
      intro n acc h
      simpa [Nat.toDigitsCore] using h.resolve_right (by omega)
  | succ f ih =>
      intro n acc _h
      simp only [Nat.toDigitsCore]
      by_cases hz : n / 10 = 0
      · rw [if_pos hz]
        simp
      · rw [if_neg hz]
        exact ih (n / 10) (Nat.digitChar (n % 10) :: acc) (Or.inl (by simp))

theorem repr_data_ne_nil (n : Nat) : (Nat.repr n).data ≠ [] :=
  toDigitsCore_ne_nil (n + 1) n [] (Or.inr (by omega))

theorem strIncludes_eq_true_iff (s pat : String) :
    strIncludes s pat = true ↔
      ∃ i, i < s.length + 1 ∧ pat.data <+: s.data.drop i := by
  simp [strIncludes, List.any_eq_true, List.mem_range, List.isPrefixOf_iff_prefix]

/-- A pattern with no digit characters cannot straddle an all-digit block: an
occurrence inside `a ++ b ++ c` with `b` nonempty all-digits lies inside `a`
or inside `c`. -/
theorem prefix_drop_sandwich (a b c pat : List Char) (i : Nat)
    (hbne : b ≠ []) (hbd : ∀ ch ∈ b, ch.isDigit = true)
    (hpd : ∀ ch ∈ pat, ch.isDigit = false) (hpne : pat ≠ [])
    (h : pat <+: (a ++ b ++ c).drop i) :
    (∃ j, pat <+: a.drop j) ∨ (∃ j, pat <+: c.drop j) := by
  have hplen : 0 < pat.length := List.length_pos.mpr hpne
  have hblen : 0 < b.length := List.length_pos.mpr hbne
  have htake : pat = ((a ++ b ++ c).drop i).take pat.length :=
    List.prefix_iff_eq_take.mp h
  have hlenle : pat.length ≤ ((a ++ b ++ c).drop i).length := h.length_le
  have hLlen : i + pat.length ≤ a.length + b.length + c.length := by
    simp [List.length_drop, List.length_append] at hlenle
    omega
  by_cases hcase1 : i + pat.length ≤ a.length
  · left
    refine ⟨i, ?_⟩
    have hd : (a ++ b ++ c).drop i = a.drop i ++ (b ++ c) := by
      rw [List.append_assoc, List.drop_append_of_le_length (by omega)]
    rw [htake, hd, List.take_append_of_le_length (by simp [List.length_drop]; omega)]
    exact List.take_prefix pat.length (a.drop i)
  · by_cases hcase2 : a.length + b.length ≤ i
    · right
      refine ⟨i - (a.length + b.length), ?_⟩
      have hi : i = (a ++ b).length + (i - (a.length + b.length)) := by
        simp [List.length_append]
        omega
      have hd : (a ++ b ++ c).drop i = c.drop (i - (a.length + b.length)) := by
        conv_lhs => rw [hi]
        rw [List.drop_append]
      rw [← hd]
      exact h
    · exfalso
      -- the occurrence overlaps the digit block: position i + k is in both
      set k := max i a.length - i with hk
      have hk2 : k < pat.length := by omega
      have hk3 : a.length ≤ i + k := by omega
      have hk4 : i + k < a.length + b.length := by omega
      have hjL : i + k < (a ++ b ++ c).length := by
        simp [List.length_append]
        omega
      have htb : k < (((a ++ b ++ c).drop i).take pat.length).length := by
        simp [List.length_take, List.length_drop, List.length_append]
        omega
      have hkb : i + k - a.length < b.length := by omega
      have h1 : pat[k] = (((a ++ b ++ c).drop i).take pat.length)[k] :=
        List.getElem_of_eq htake hk2
      have hpatel : pat[k] = (a ++ b ++ c)[i + k] := by
        rw [h1, List.getElem_take, List.getElem_drop]
      have hab : i + k < (a ++ b).length := by
        simp [List.length_append]
        omega
      have hbel : (a ++ b ++ c)[i + k] = b[i + k - a.length] := by
        rw [List.getElem_append_left hab, List.getElem_append_right hk3]
      have hdig : ((a ++ b ++ c)[i + k]).isDigit = true := by
        rw [hbel]
        exact hbd _ (List.getElem_mem _)
      have hnodig : (pat[k]).isDigit = false :=
        hpd _ (List.getElem_mem _)
      rw [hpatel, hdig] at hnodig
      simp at hnodig

theorem strIncludes_num_sandwich (a c pat : String) (n : Nat)
    (hpd : ∀ ch ∈ pat.data, ch.isDigit = false) (hpne : pat.data ≠ [])
    (ha : strIncludes a pat = false) (hc : strIncludes c pat = false) :
    strIncludes (a ++ Nat.repr n ++ c) pat = false := by
  by_contra hne
  have hT : strIncludes (a ++ Nat.repr n ++ c) pat = true := by
    cases h : strIncludes (a ++ Nat.repr n ++ c) pat
    · exact absurd h hne
    · rfl
  rcases (strIncludes_eq_true_iff _ _).mp hT with ⟨i, _, hpre⟩
  have hdata : (a ++ Nat.repr n ++ c).data =
      a.data ++ (Nat.repr n).data ++ c.data := by
    simp [String.data_append]
  rw [hdata] at hpre
  have hplen : 0 < pat.data.length := List.length_pos.mpr hpne
  rcases prefix_drop_sandwich a.data (Nat.repr n).data c.data pat.data i
      (repr_data_ne_nil n) (repr_data_digits n) hpd hpne hpre with
    ⟨j, hj⟩ | ⟨j, hj⟩
  · have hlen := hj.length_le
    simp only [List.length_drop] at hlen
    have : strIncludes a pat = true := by
      rw [strIncludes_eq_true_iff]
      refine ⟨j, ?_, hj⟩
      have hla : a.length = a.data.length := rfl
      omega
    rw [this] at ha
    exact absurd ha (by simp)
  · have hlen := hj.length_le
    simp only [List.length_drop] at hlen
    have : strIncludes c pat = true := by
      rw [strIncludes_eq_true_iff]
      refine ⟨j, ?_, hj⟩
      have hlc : c.length = c.data.length := rfl
      omega
    rw [this] at hc
    exact absurd hc (by simp)

/-- A size-limit message `prefix ++ decimal ++ suffix` hits none of
`classifyError`'s keyword substrings, whatever the configured limit. -/
theorem size_message_classify (pre suf : String) (n : Nat)
    (h1 : strIncludes pre "ECONNREFUSED" = false ∧
      strIncludes suf "ECONNREFUSED" = false)
    (h2 : strIncludes pre "ENOTFOUND" = false ∧
      strIncludes suf "ENOTFOUND" = false)
    (h3 : strIncludes pre "ETIMEDOUT" = false ∧
      strIncludes suf "ETIMEDOUT" = false)
    (h4 : strIncludes pre "ECONNRESET" = false ∧
      strIncludes suf "ECONNRESET" = false)
    (h5 : strIncludes pre "socket hang up" = false ∧
      strIncludes suf "socket hang up" = false)
    (h6 : strIncludes pre "timeout" = false ∧
      strIncludes suf "timeout" = false) :
    classifyError (JsError.error "Error" (pre ++ Nat.repr n ++ suf)) =
      ⟨ErrorCategory.FATAL, false, "UNKNOWN_ERROR", pre ++ Nat.repr n ++ suf,
        none⟩ := by
  have k1 := strIncludes_num_sandwich pre suf "ECONNREFUSED" n
    (by decide) (by decide) h1.1 h1.2
  have k2 := strIncludes_num_sandwich pre suf "ENOTFOUND" n
    (by decide) (by decide) h2.1 h2.2
  have k3 := strIncludes_num_sandwich pre suf "ETIMEDOUT" n
    (by decide) (by decide) h3.1 h3.2
  have k4 := strIncludes_num_sandwich pre suf "ECONNRESET" n
    (by decide) (by decide) h4.1 h4.2
  have k5 := strIncludes_num_sandwich pre suf "socket hang up" n
    (by decide) (by decide) h5.1 h5.2
  have k6 := strIncludes_num_sandwich pre suf "timeout" n
    (by decide) (by decide) h6.1 h6.2
  simp only [classifyError, k1, k2, k3, k4, k5, k6]
  simp

theorem outputSizeError_classify (cfg : ProcConfig) :
    classifyError (outputSizeError cfg) =
      ⟨ErrorCategory.FATAL, false, "UNKNOWN_ERROR",
        "Step output exceeds " ++ toString cfg.MAX_STEP_OUTPUT_BYTES ++ " bytes",
        none⟩ := by
  have h : toString cfg.MAX_STEP_OUTPUT_BYTES = Nat.repr cfg.MAX_STEP_OUTPUT_BYTES :=
    rfl
  rw [outputSizeError, h]
  exact size_message_classify "Step output exceeds " " bytes"
    cfg.MAX_STEP_OUTPUT_BYTES ⟨by decide, by decide⟩ ⟨by decide, by decide⟩
    ⟨by decide, by decide⟩ ⟨by decide, by decide⟩ ⟨by decide, by decide⟩
    ⟨by decide, by decide⟩

theorem contextSizeError_classify (cfg : ProcConfig) :
    classifyError (contextSizeError cfg) =
      ⟨ErrorCategory.FATAL, false, "UNKNOWN_ERROR",
        "Context exceeds " ++ toString cfg.MAX_CONTEXT_SIZE_BYTES ++ " bytes",
        none⟩ := by
  have h : toString cfg.MAX_CONTEXT_SIZE_BYTES = Nat.repr cfg.MAX_CONTEXT_SIZE_BYTES :=
    rfl
  rw [contextSizeError, h]
  exact size_message_classify "Context exceeds " " bytes"
    cfg.MAX_CONTEXT_SIZE_BYTES ⟨by decide, by decide⟩ ⟨by decide, by decide⟩
    ⟨by decide, by decide⟩ ⟨by decide, by decide⟩ ⟨by decide, by decide⟩
    ⟨by decide, by decide⟩

/-! ## C4 — size-limit overruns -/

/-- C4 (amended): an output exceeding `MAX_STEP_OUTPUT_BYTES`, or an extended
context exceeding `MAX_CONTEXT_SIZE_BYTES`, is thrown as a plain `Error` that
`classifyError` places in the FATAL category with code `UNKNOWN_ERROR` — not
VALIDATION — which is equally non-retryable: whatever the step's retry
policy, the run is written `failed` and no retry message is enqueued. -/
theorem size_overrun_fatal_no_retry (cfg : ProcConfig) (msg : ExecuteStepMessage)
    (workflow : Workflow) (run : Run) (handlerTypes : List String)
    (resolvedConfig : Json) (output : Json) (rand : ℚ) (step : Step)
    (hStatus : run.status = RunStatus.running)
    (hIdx : run.currentStepIndex = msg.stepIndex)
    (hFind : (workflow.steps.filter (fun s => s.enabled)).find?
      (fun s => s.id = msg.stepId) = some step)
    (hHandler : handlerTypes.contains step.type = true) :
    let result := processExecuteStep cfg msg true (some workflow) (some run)
      handlerTypes resolvedConfig (StepOutcome.ok output) rand
    ((jsonStringify output).length > cfg.MAX_STEP_OUTPUT_BYTES →
      (classifyError (outputSizeError cfg)).category = ErrorCategory.FATAL ∧
      (classifyError (outputSizeError cfg)).retryable = false ∧
      Effect.updateRun RunStatus.failed none none true
        (some ⟨"UNKNOWN_ERROR",
          "Step output exceeds " ++ toString cfg.MAX_STEP_OUTPUT_BYTES ++ " bytes",
          none, msg.stepId, step.name⟩) ∈ result.effects ∧
      ∀ q m d, Effect.enqueue q m d ∉ result.effects) ∧
    (¬ ((jsonStringify output).length > cfg.MAX_STEP_OUTPUT_BYTES) →
      (jsonStringify (contextJson { run.context with
          steps := setKey run.context.steps step.name output })).length >
        cfg.MAX_CONTEXT_SIZE_BYTES →
      (classifyError (contextSizeError cfg)).category = ErrorCategory.FATAL ∧
      (classifyError (contextSizeError cfg)).retryable = false ∧
      Effect.updateRun RunStatus.failed none none true
        (some ⟨"UNKNOWN_ERROR",
          "Context exceeds " ++ toString cfg.MAX_CONTEXT_SIZE_BYTES ++ " bytes",
          none, msg.stepId, step.name⟩) ∈ result.effects ∧
      ∀ q m d, Effect.enqueue q m d ∉ result.effects) := by
  intro result
  constructor
  · intro hSize
    have hcls := outputSizeError_classify cfg
    have hres : result.effects =
        [Effect.createExecution msg.runId msg.stepId step.name msg.attempt
          resolvedConfig, Effect.updateExecutionRunning] ++
        failureEffects msg step (outputSizeError cfg) rand := by
      simp only [result, processExecuteStep, hStatus, hIdx, hFind, hHandler]
      simp [hSize]
    have heffs : failureEffects msg step (outputSizeError cfg) rand =
        [Effect.updateExecutionFailed ⟨"UNKNOWN_ERROR",
          "Step output exceeds " ++ toString cfg.MAX_STEP_OUTPUT_BYTES ++ " bytes",
          none, false⟩,
         Effect.updateRun RunStatus.failed none none true
          (some ⟨"UNKNOWN_ERROR",
            "Step output exceeds " ++ toString cfg.MAX_STEP_OUTPUT_BYTES ++ " bytes",
            none, msg.stepId, step.name⟩)] := by
      simp only [failureEffects, hcls]
      simp
    refine ⟨by simp [hcls], by simp [hcls], ?_, ?_⟩
    · simp [hres, heffs]
    · intro q m d
      simp [hres, heffs]
  · intro hFit hCtx
    have hcls := contextSizeError_classify cfg
    have hres : result.effects =
        [Effect.createExecution msg.runId msg.stepId step.name msg.attempt
          resolvedConfig, Effect.updateExecutionRunning,
         Effect.updateExecutionCompleted output] ++
        failureEffects msg step (contextSizeError cfg) rand := by
      simp only [result, processExecuteStep, hStatus, hIdx, hFind, hHandler]
      simp [hFit, hCtx]
    have heffs : failureEffects msg step (contextSizeError cfg) rand =
        [Effect.updateExecutionFailed ⟨"UNKNOWN_ERROR",
          "Context exceeds " ++ toString cfg.MAX_CONTEXT_SIZE_BYTES ++ " bytes",
          none, false⟩,
         Effect.updateRun RunStatus.failed none none true
          (some ⟨"UNKNOWN_ERROR",
            "Context exceeds " ++ toString cfg.MAX_CONTEXT_SIZE_BYTES ++ " bytes",
            none, msg.stepId, step.name⟩)] := by
      simp only [failureEffects, hcls]
      simp
    refine ⟨by simp [hcls], by simp [hcls], ?_, ?_⟩
    · simp [hres, heffs]
    · intro q m d
      simp [hres, heffs]

/-- A step carrying a generous retry policy, for the C4 counterexample: even
with attempts left, a size overrun retries nothing. -/
def retryStepC4 : Step :=
  ⟨"s1", "fetch", "http", Json.null, some ⟨5, BackoffType.fixed, 100, 1000⟩,
    none, true⟩

def workflowC4 : Workflow := ⟨"w1", [retryStepC4]⟩

/-- C4 counterexample: with `MAX_STEP_OUTPUT_BYTES = 2` and output `"abc"`
(serializing to 5 characters), the classified category is FATAL, not
VALIDATION as the claim states; the full effect trace shows the run written
`failed` with code `UNKNOWN_ERROR` and no retry despite `maxAttempts = 5`. -/
theorem size_overrun_not_validation :
    (classifyError (outputSizeError ⟨2, 1048576⟩)).category = ErrorCategory.FATAL ∧
    (classifyError (outputSizeError ⟨2, 1048576⟩)).category ≠
      ErrorCategory.VALIDATION ∧
    processExecuteStep ⟨2, 1048576⟩ sampleMsg true (some workflowC4)
      (some sampleRunningRun) ["http"] Json.null
      (StepOutcome.ok (Json.str "abc")) 0 =
      ⟨[Effect.createExecution "r1" "s1" "fetch" 1 Json.null,
        Effect.updateExecutionRunning,
        Effect.updateExecutionFailed
          ⟨"UNKNOWN_ERROR", "Step output exceeds 2 bytes", none, false⟩,
        Effect.updateRun RunStatus.failed none none true
          (some ⟨"UNKNOWN_ERROR", "Step output exceeds 2 bytes", none,
            "s1", "fetch"⟩)], none⟩ :=
  ⟨by rfl, by decide, by rfl⟩

/-- Witness for `size_overrun_fatal_no_retry` at the same concrete inputs. -/
theorem size_overrun_fatal_no_retry_example :
    let result := processExecuteStep ⟨2, 1048576⟩ sampleMsg true (some workflowC4)
      (some sampleRunningRun) ["http"] Json.null
      (StepOutcome.ok (Json.str "abc")) 0
    ((jsonStringify (Json.str "abc")).length > (2 : Nat) →
      (classifyError (outputSizeError ⟨2, 1048576⟩)).category =
        ErrorCategory.FATAL ∧
      (classifyError (outputSizeError ⟨2, 1048576⟩)).retryable = false ∧
      Effect.updateRun RunStatus.failed none none true
        (some ⟨"UNKNOWN_ERROR", "Step output exceeds " ++ toString (2 : Nat) ++
          " bytes", none, sampleMsg.stepId, retryStepC4.name⟩) ∈ result.effects ∧
      ∀ q m d, Effect.enqueue q m d ∉ result.effects) ∧
    (¬ ((jsonStringify (Json.str "abc")).length > (2 : Nat)) →
      (jsonStringify (contextJson { sampleRunningRun.context with
          steps := setKey sampleRunningRun.context.steps retryStepC4.name
            (Json.str "abc") })).length > (1048576 : Nat) →
      (classifyError (contextSizeError ⟨2, 1048576⟩)).category =
        ErrorCategory.FATAL ∧
      (classifyError (contextSizeError ⟨2, 1048576⟩)).retryable = false ∧
      Effect.updateRun RunStatus.failed none none true
        (some ⟨"UNKNOWN_ERROR", "Context exceeds " ++ toString (1048576 : Nat) ++
          " bytes", none, sampleMsg.stepId, retryStepC4.name⟩) ∈ result.effects ∧
      ∀ q m d, Effect.enqueue q m d ∉ result.effects) :=
  size_overrun_fatal_no_retry ⟨2, 1048576⟩ sampleMsg workflowC4 sampleRunningRun
    ["http"] Json.null (Json.str "abc") 0 retryStepC4 rfl rfl (by rfl) (by rfl)

/-! ## C6 and C7 — string template resolution -/

/-- The interpolation as the claim words it, rebuilt in order: the segment
before each placeholder, then the stringified value, then the rest. This is
the specification-side definition compared against the source's
reverse-index-order splicing. -/
def segmentRebuild (bv : String → Json) (jeval : String → EvalOut)
    (tmpl : List Char) : Nat → List (Nat × String) → List Char
  | pos, [] => tmpl.drop pos
  | pos, (idx, inner) :: rest =>
      (tmpl.drop pos).take (idx - pos) ++
      (valueToReplacement (evaluateExpression bv jeval (jsTrim inner))).data ++
      segmentRebuild bv jeval tmpl (idx + inner.length + 4) rest

def specInterpolate (bv : String → Json) (jeval : String → EvalOut)
    (template : String) : String :=
  String.mk (segmentRebuild bv jeval template.data 0 (scanPlaceholders template))

/-- Scan matches are ordered, non-overlapping and in bounds: each starts at
or after `lo` and ends by `n`, and the rest starts after its end. -/
def matchesWF : Nat → Nat → List (Nat × String) → Prop
  | _, _, [] => True
  | lo, n, (idx, inner) :: rest =>
      lo ≤ idx ∧ idx + inner.length + 4 ≤ n ∧
        matchesWF (idx + inner.length + 4) n rest

theorem matchesWF_mono (lo lo' n : Nat) (ms : List (Nat × String))
    (h : lo ≤ lo') (hwf : matchesWF lo' n ms) : matchesWF lo n ms := by
  cases ms with
  | nil => trivial
  | cons m rest =>
      obtain ⟨h1, h2, h3⟩ := hwf
      exact ⟨le_trans h h1, h2, h3⟩

theorem scanAux_wf : ∀ (cs : List Char) (i : Nat),
    matchesWF i (i + cs.length) (scanAux cs i) := by
  intro cs i
  induction cs, i using scanAux.induct with
  | case1 rest i hcond ih =>
      rw [scanAux.eq_1, if_pos hcond]
      have hinner : (innerRun rest).length ≤ rest.length :=
        ( List.takeWhile_prefix _).length_le
      have hrem : ((rest.drop (innerRun rest).length).take 2).length = 2 := by
        rw [hcond.2]
        rfl
      simp only [List.length_take, List.length_drop] at hrem
      have hmk : (String.mk (innerRun rest)).length = (innerRun rest).length := rfl
      refine ⟨le_refl i, by simp only [List.length_cons, hmk]; omega, ?_⟩
      have hlen : (i + (innerRun rest).length + 4) +
          ((rest.drop (innerRun rest).length).drop 2).length =
          i + ('\x7b' :: '\x7b' :: rest).length := by
        simp only [List.length_drop, List.length_cons]
        omega
      rw [← hlen]
      exact ih
  | case2 rest i hcond ih =>
      rw [scanAux.eq_1, if_neg hcond]
      have hlen : (i + 1) + ('\x7b' :: rest).length =
          i + ('\x7b' :: '\x7b' :: rest).length := by
        simp only [List.length_cons]
        omega
      rw [hlen] at ih
      exact matchesWF_mono i (i + 1) _ _ (by omega) ih
  | case3 head rest i hne ih =>
      rw [scanAux.eq_2 i head rest hne]
      have hlen : (i + 1) + rest.length = i + (head :: rest).length := by
        simp only [List.length_cons]
        omega
      rw [hlen] at ih
      exact matchesWF_mono i (i + 1) _ _ (by omega) ih
  | case4 i =>
      rw [scanAux.eq_3]
      trivial

/-- Reverse-index-order splicing equals the in-order segment rebuild on any
ordered, non-overlapping, in-bounds match list: the source's reverse loop
preserves every offset it has yet to use. -/
theorem interpolateMatches_eq_rebuild (bv : String → Json) (jeval : String → EvalOut)
    (tmpl : List Char) :
    ∀ (ms : List (Nat × String)) (lo : Nat), matchesWF lo tmpl.length ms →
      interpolateMatches bv jeval tmpl ms =
        tmpl.take lo ++ segmentRebuild bv jeval tmpl lo ms := by
  intro ms
  induction ms with
  | nil =>
      intro lo _
      simp [interpolateMatches, segmentRebuild]
  | cons m rest ih =>
      obtain ⟨idx, inner⟩ := m
      intro lo hwf
      obtain ⟨h1, h2, h3⟩ := hwf
      have hih := ih (idx + inner.length + 4) h3
      simp only [interpolateMatches, segmentRebuild, spliceOne]
      rw [hih]
      have hlenTake : (tmpl.take (idx + inner.length + 4)).length =
          idx + inner.length + 4 := by
        simp only [List.length_take]
        omega
      have hTake : ((tmpl.take (idx + inner.length + 4)) ++
          segmentRebuild bv jeval tmpl (idx + inner.length + 4) rest).take idx =
          tmpl.take idx := by
        rw [List.take_append_of_le_length (by omega), List.take_take]
        congr 1
        omega
      have hDrop : ((tmpl.take (idx + inner.length + 4)) ++
          segmentRebuild bv jeval tmpl (idx + inner.length + 4) rest).drop
            (idx + (inner.length + 4)) =
          segmentRebuild bv jeval tmpl (idx + inner.length + 4) rest := by
        rw [List.drop_append_of_le_length (by omega)]
        rw [List.drop_eq_nil_of_le (by omega)]
        simp
      rw [hTake, hDrop]
      have hsplit : tmpl.take idx =
          tmpl.take lo ++ (tmpl.drop lo).take (idx - lo) := by
        rw [← List.take_add]
        congr 1
        omega
      rw [hsplit]
      simp [List.append_assoc]

/-- C6 (amended): the three behaviours of `resolveStringTemplate`. A string
matching the greedy whole-string regex — which includes strings with several
placeholders, such as `\x7b\x7ba\x7d\x7d-\x7b\x7bb\x7d\x7d` — is treated as
ONE expression and returned as the raw evaluated value of the whole middle;
only a string not of that shape is interpolated, and there the source's
reverse-index-order splicing equals the in-order rebuild that evaluates each
placeholder, stringifies it (objects/arrays via JSON, null/undefined as the
empty string, other primitives via standard conversion) and splices the
results back; a string with no placeholder is returned unchanged. -/
theorem resolveStringTemplate_branches (bv : String → Json)
    (jeval : String → EvalOut) (template : String) :
    (∀ inner, singleExprInner template = some inner →
      resolveStringTemplate bv jeval template =
        evaluateExpression bv jeval (jsTrim inner)) ∧
    (singleExprInner template = none → scanPlaceholders template ≠ [] →
      resolveStringTemplate bv jeval template =
        JsVal.val (Json.str (specInterpolate bv jeval template))) ∧
    (singleExprInner template = none → scanPlaceholders template = [] →
      resolveStringTemplate bv jeval template =
        JsVal.val (Json.str template)) := by
  refine ⟨?_, ?_, ?_⟩
  · intro inner hsingle
    simp [resolveStringTemplate, hsingle]
  · intro hnone hms
    have hwf : matchesWF 0 template.data.length (scanPlaceholders template) := by
      simpa using scanAux_wf template.data 0
    have heq := interpolateMatches_eq_rebuild bv jeval template.data
      (scanPlaceholders template) 0 hwf
    simp only [resolveStringTemplate, hnone, specInterpolate]
    rw [if_neg (by simpa using hms)]
    rw [heq]
    simp
  · intro hnone hms
    simp [resolveStringTemplate, hnone, hms]

def bvSample : String → Json := fun _ => Json.null

/-- An evaluation oracle matching a context with `trigger = (a: 1, b: 2)`:
the two simple path expressions evaluate; any other text — in particular the
ill-formed `trigger.a\x7d\x7d-\x7b\x7btrigger.b` — fails to compile. -/
def oracleC6 : String → EvalOut := fun e =>
  if e = "trigger.a" then EvalOut.value (Json.num 1)
  else if e = "trigger.b" then EvalOut.value (Json.num 2)
  else EvalOut.fail

def templateC6 : String := "\x7b\x7btrigger.a\x7d\x7d-\x7b\x7btrigger.b\x7d\x7d"

/-- C6 counterexample: `\x7b\x7btrigger.a\x7d\x7d-\x7b\x7btrigger.b\x7d\x7d`
holds two placeholders with text between them, and the claim's interpolation
would produce `1-2`; but the greedy whole-string regex matches it, so the
source treats it as ONE expression, which fails to compile, and the string
comes back unchanged instead of interpolated. -/
theorem greedy_regex_defeats_interpolation :
    (scanPlaceholders templateC6).length = 2 ∧
    specInterpolate bvSample oracleC6 templateC6 = "1-2" ∧
    resolveStringTemplate bvSample oracleC6 templateC6 =
      JsVal.val (Json.str templateC6) ∧
    templateC6 ≠ "1-2" := by
  have hscan : scanPlaceholders templateC6 = [(0, "trigger.a"), (14, "trigger.b")] := by
    simp [scanPlaceholders, templateC6, scanAux, innerRun]
  refine ⟨by simp [hscan], ?_, by rfl, by decide⟩
  simp only [specInterpolate, hscan]
  rfl

/-! C7 -/

def oracleFailAll : String → EvalOut := fun _ => EvalOut.fail

/-- C7 counterexample: for the template `\x7b\x7b ( \x7d\x7d` the inner
expression fails to compile, and the resolved result is `\x7b\x7b(\x7d\x7d` —
the original fragment with its interior whitespace dropped, so the fragment
is not preserved character for character as the claim states. -/
theorem evalfail_not_verbatim :
    resolveStringTemplate bvSample oracleFailAll "\x7b\x7b ( \x7d\x7d" =
      JsVal.val (Json.str "\x7b\x7b(\x7d\x7d") ∧
    ("\x7b\x7b(\x7d\x7d" : String) ≠ "\x7b\x7b ( \x7d\x7d" :=
  ⟨by rfl, by decide⟩

/-- C7 (amended): when the expression inside a single-placeholder template
fails to compile or evaluate, no error propagates (the resolver is a total
function) and the result is the fragment reconstructed from the TRIMMED
expression, `\x7b\x7b ++ inner.trim ++ \x7d\x7d`: identical to the original
fragment except that whitespace immediately inside the braces is dropped. -/
theorem evalfail_fragment_trimmed (bv : String → Json) (jeval : String → EvalOut)
    (template inner : String)
    (hsingle : singleExprInner template = some inner)
    (hb : (startsWithDollar (jsTrim inner) &&
      builtinNames.contains (headBeforeParen (jsTrim inner))) = false)
    (hf : jeval (jsTrim inner) = EvalOut.fail) :
    resolveStringTemplate bv jeval template =
      JsVal.val (Json.str ("\x7b\x7b" ++ jsTrim inner ++ "\x7d\x7d")) := by
  have hcond : ¬ ((startsWithDollar (jsTrim inner) &&
      builtinNames.contains (headBeforeParen (jsTrim inner))) = true) := by
    rw [hb]
    simp
  simp only [resolveStringTemplate, hsingle]
  unfold evaluateExpression
  rw [if_neg hcond, hf]

/-- Witness for `evalfail_fragment_trimmed` on `\x7b\x7b trigger.x \x7d\x7d`
with an oracle that fails on `trigger.x`. -/
theorem evalfail_fragment_trimmed_example :
    resolveStringTemplate bvSample oracleFailAll "\x7b\x7b trigger.x \x7d\x7d" =
      JsVal.val (Json.str ("\x7b\x7b" ++ jsTrim " trigger.x " ++
        "\x7d\x7d")) :=
  evalfail_fragment_trimmed bvSample oracleFailAll "\x7b\x7b trigger.x \x7d\x7d"
    " trigger.x " (by rfl) (by rfl) (by rfl)

/-! ## C3 — `currentStepIndex` never decreases -/

/-- One engine operation against a run, with the external inputs it reads. -/
inductive Operation where
  | startRun (runId workflowId : String) (workflow? : Option Workflow)
  | executeStep (cfg : ProcConfig) (msg : ExecuteStepMessage)
      (lockAcquired : Bool) (workflow? : Option Workflow)
      (handlerTypes : List String) (resolvedConfig : Json)
      (outcome : StepOutcome) (rand : ℚ)
  | cancel

/-- The effects an operation emits against the run row it loads. -/
def opEffects (op : Operation) (run : Run) : List Effect :=
  match op with
  | Operation.startRun runId workflowId workflow? =>
      (processStartRun runId workflowId workflow? (some run)).effects
  | Operation.executeStep cfg msg lockAcquired workflow? handlerTypes
      resolvedConfig outcome rand =>
      (processExecuteStep cfg msg lockAcquired workflow? (some run) handlerTypes
        resolvedConfig outcome rand).effects
  | Operation.cancel => (cancelRun (some run)).2

/-- `runRepository.updateStatus` against the row: only the fields passed are
written. Step-execution and queue effects do not touch the run. -/
def applyEffect (run : Run) : Effect → Run
  | Effect.updateRun status currentStepIndex? context? _setCompletedAt error? =>
      { run with
          status := status,
          currentStepIndex := currentStepIndex?.getD run.currentStepIndex,
          context := context?.getD run.context,
          error := match error? with
            | some e => some e
            | none => run.error }
  | _ => run

def applyEffects (run : Run) (effects : List Effect) : Run :=
  effects.foldl applyEffect run

def applyOp (run : Run) (op : Operation) : Run :=
  applyEffects run (opEffects op run)

def applyOps (run : Run) : List Operation → Run
  | [] => run
  | op :: ops => applyOps (applyOp run op) ops

theorem failureEffects_updateRun_idx (msg : ExecuteStepMessage) (step : Step)
    (e : JsError) (rand : ℚ) (st : RunStatus) (i? : Option Nat)
    (c? : Option ExecutionContext) (b : Bool) (e? : Option RunError)
    (hmem : Effect.updateRun st i? c? b e? ∈ failureEffects msg step e rand) :
    i? = none := by
  simp only [failureEffects] at hmem
  split at hmem
  · simp at hmem
  · simp at hmem
    exact hmem.2.1

theorem processExecuteStep_updateRun_idx (cfg : ProcConfig)
    (msg : ExecuteStepMessage) (lockAcquired : Bool)
    (workflow? : Option Workflow) (handlerTypes : List String)
    (resolvedConfig : Json) (outcome : StepOutcome) (rand : ℚ) (run : Run)
    (st : RunStatus) (i? : Option Nat) (c? : Option ExecutionContext)
    (b : Bool) (e? : Option RunError)
    (hmem : Effect.updateRun st i? c? b e? ∈
      (processExecuteStep cfg msg lockAcquired workflow? (some run) handlerTypes
        resolvedConfig outcome rand).effects) :
    i? = none ∨
      (i? = some (msg.stepIndex + 1) ∧ run.currentStepIndex = msg.stepIndex) := by
  simp only [processExecuteStep] at hmem
  repeat' split at hmem
  all_goals simp_all
  all_goals try exact Or.inl (failureEffects_updateRun_idx _ _ _ _ _ _ _ _ _ hmem)
  all_goals tauto

theorem processStartRun_updateRun_idx (runId workflowId : String)
    (workflow? : Option Workflow) (run : Run) (st : RunStatus) (i? : Option Nat)
    (c? : Option ExecutionContext) (b : Bool) (e? : Option RunError)
    (hmem : Effect.updateRun st i? c? b e? ∈
      (processStartRun runId workflowId workflow? (some run)).effects) :
    i? = none := by
  simp only [processStartRun] at hmem
  repeat' split at hmem
  all_goals simp_all
  all_goals tauto

theorem cancelRun_updateRun_idx (run : Run) (st : RunStatus) (i? : Option Nat)
    (c? : Option ExecutionContext) (b : Bool) (e? : Option RunError)
    (hmem : Effect.updateRun st i? c? b e? ∈ (cancelRun (some run)).2) :
    i? = none := by
  simp only [cancelRun] at hmem
  split at hmem
  · simp at hmem
  · simp at hmem
    tauto

theorem applyEffects_idx_bound (k : Nat) : ∀ (es : List Effect) (run : Run),
    (∀ st i? c? b e?, Effect.updateRun st i? c? b e? ∈ es →
      i? = none ∨ i? = some k) →
    ((applyEffects run es).currentStepIndex = run.currentStepIndex ∨
     (applyEffects run es).currentStepIndex = k) := by
  intro es
  induction es with
  | nil =>
      intro run _
      exact Or.inl rfl
  | cons e rest ih =>
      intro run h
      have hrest : ∀ st i? c? b e?, Effect.updateRun st i? c? b e? ∈ rest →
          i? = none ∨ i? = some k := fun st i? c? b e? hm =>
        h st i? c? b e? (List.mem_cons_of_mem e hm)
      have hstep : applyEffects run (e :: rest) =
          applyEffects (applyEffect run e) rest := rfl
      rw [hstep]
      cases e with
      | updateRun st i? c? b e? =>
          rcases h st i? c? b e? (List.mem_cons_self _ _) with hd | hd
          · have hkeep : (applyEffect run
                (Effect.updateRun st i? c? b e?)).currentStepIndex =
                run.currentStepIndex := by
              simp [applyEffect, hd]
            rcases ih (applyEffect run (Effect.updateRun st i? c? b e?)) hrest with
              h1 | h1
            · exact Or.inl (by rw [h1, hkeep])
            · exact Or.inr h1
          · have hset : (applyEffect run
                (Effect.updateRun st i? c? b e?)).currentStepIndex = k := by
              simp [applyEffect, hd]
            rcases ih (applyEffect run (Effect.updateRun st i? c? b e?)) hrest with
              h1 | h1
            · exact Or.inr (by rw [h1, hset])
            · exact Or.inr h1
      | createExecution a1 a2 a3 a4 a5 => exact ih run hrest
      | updateExecutionRunning => exact ih run hrest
      | updateExecutionCompleted a1 => exact ih run hrest
      | updateExecutionFailed a1 => exact ih run hrest
      | enqueue a1 a2 a3 => exact ih run hrest

theorem applyOp_idx (op : Operation) (run : Run) :
    (applyOp run op).currentStepIndex = run.currentStepIndex ∨
    (applyOp run op).currentStepIndex = run.currentStepIndex + 1 := by
  cases op with
  | startRun runId workflowId workflow? =>
      refine applyEffects_idx_bound (run.currentStepIndex + 1) _ run ?_
      intro st i? c? b e? hm
      exact Or.inl (processStartRun_updateRun_idx runId workflowId workflow? run
        st i? c? b e? hm)
  | executeStep cfg msg lockAcquired workflow? handlerTypes resolvedConfig
      outcome rand =>
      refine applyEffects_idx_bound (run.currentStepIndex + 1) _ run ?_
      intro st i? c? b e? hm
      rcases processExecuteStep_updateRun_idx cfg msg lockAcquired workflow?
        handlerTypes resolvedConfig outcome rand run st i? c? b e? hm with
        hd | ⟨hd, hidx⟩
      · exact Or.inl hd
      · exact Or.inr (by rw [hd, ← hidx])
  | cancel =>
      refine applyEffects_idx_bound (run.currentStepIndex + 1) _ run ?_
      intro st i? c? b e? hm
      exact Or.inl (cancelRun_updateRun_idx run st i? c? b e? hm)

/-- C3: across every sequence of engine operations — `processStartRun`,
`processExecuteStep` under arbitrary duplicated or delayed messages and lock
outcomes, and the cancel endpoint — `run.currentStepIndex` never decreases;
and the only effect that writes `currentStepIndex` at all is the processor's
advance, which sets it to `msg.stepIndex + 1` and is emitted only after
checking that the stored index equals `msg.stepIndex`. -/
theorem currentStepIndex_never_decreases :
    (∀ (ops : List Operation) (run : Run),
      run.currentStepIndex ≤ (applyOps run ops).currentStepIndex) ∧
    (∀ (op : Operation) (run : Run) (st : RunStatus) (i : Nat)
        (c? : Option ExecutionContext) (b : Bool) (e? : Option RunError),
      Effect.updateRun st (some i) c? b e? ∈ opEffects op run →
      ∃ cfg msg lockAcquired workflow? handlerTypes resolvedConfig outcome rand,
        op = Operation.executeStep cfg msg lockAcquired workflow? handlerTypes
          resolvedConfig outcome rand ∧
        i = msg.stepIndex + 1 ∧ run.currentStepIndex = msg.stepIndex) := by
  constructor
  · intro ops
    induction ops with
    | nil =>
        intro run
        exact le_refl _
    | cons op rest ih =>
        intro run
        have h1 := applyOp_idx op run
        have h2 := ih (applyOp run op)
        have hstep : applyOps run (op :: rest) = applyOps (applyOp run op) rest :=
          rfl
        rw [hstep]
        rcases h1 with h1 | h1 <;> omega
  · intro op run st i c? b e? hm
    cases op with
    | startRun runId workflowId workflow? =>
        have := processStartRun_updateRun_idx runId workflowId workflow? run
          st (some i) c? b e? hm
        simp at this
    | executeStep cfg msg lockAcquired workflow? handlerTypes resolvedConfig
        outcome rand =>
        rcases processExecuteStep_updateRun_idx cfg msg lockAcquired workflow?
          handlerTypes resolvedConfig outcome rand run st (some i) c? b e? hm with
          hd | ⟨hd, hidx⟩
        · simp at hd
        · refine ⟨cfg, msg, lockAcquired, workflow?, handlerTypes, resolvedConfig,
            outcome, rand, rfl, ?_, hidx⟩
          simpa using hd
    | cancel =>
        have := cancelRun_updateRun_idx run st (some i) c? b e? hm
        simp at this

end AutomationTool
